import Mathlib

set_option autoImplicit false

/-!
# Logical clusters over node labels

A shallow embedding of `logical_cluster.go`.  The Go program keeps no state of
its own: a logical cluster is the set of Kubernetes nodes whose label
`logical-cluster` has a given value.  Every function of the source talks to the
control plane through `clientset.CoreV1().Nodes().List` and `.Patch`; here the
control plane is an explicit value of type `Clientset` that each function takes
and hands back, so that the labels left behind by a failed call stay visible.

`(out-parameter, error)` results of the Go functions are `Except Err α`: an
`.error` leaves the out-parameter as it was, `.ok v` stands for a `nil` error
with `v` marshalled into the out-parameter.
-/

namespace LogicalCluster

/-! ## Data model -/

/-- Errors returned by the functions of the program. -/
inductive Err where
  /-- An error handed back by the control plane client (`List` or `Patch`). -/
  | api (msg : String)
  /-- The value of `errors.New("该逻辑群不存在")` in `getCluster`. -/
  | clusterNotFound
  /-- The value of `errors.New("no logical cluster resource exists")` in `listClusters`. -/
  | noClusterExists
  deriving DecidableEq, Repr

/-- A node of the inventory: its name and its label map (a Go `map[string]string`,
kept as an association list read by first match). -/
structure Node where
  Name : String
  Labels : List (String × String)
  deriving DecidableEq, Repr

/-- The Go struct `logicalCluster`. -/
structure logicalCluster where
  ClusterName : String
  Hosts : List String
  deriving DecidableEq, Repr

/-- The one label key the program reads and writes. -/
def labelKey : String := "logical-cluster"

/-- Map lookup `labels[key]` with its presence flag. -/
def getLabel : List (String × String) → String → Option String
  | [], _ => none
  | (k, v) :: rest, key => if k = key then some v else getLabel rest key

/-- Removal of a key from a label map. -/
def eraseLabel (labels : List (String × String)) (key : String) : List (String × String) :=
  labels.filter (fun kv => decide (kv.1 ≠ key))

/-- Insertion or overwrite of a key in a label map. -/
def setLabel (labels : List (String × String)) (key value : String) : List (String × String) :=
  (key, value) :: eraseLabel labels key

/-- The value of the `logical-cluster` label of a node, if it carries one. -/
def Node.cluster (n : Node) : Option String := getLabel n.Labels labelKey

/-! ## The control plane

Modelled from the spec: the client-go calls `Nodes().List` and `Nodes().Patch`
are not part of the repository; they follow sections 4.1, 4.2 and 6 of the
specification (a query returns the nodes meeting the selector it is sent, all
nodes when the selector is empty; a merge patch sets or overwrites the label, a
removal patch deletes it; one node per call; errors are returned to the
caller). -/

/-- The selector a `List` request carries: equality requirements that a node
must meet all at once.  No requirement selects every node. -/
structure Selector where
  requirements : List (String × String)
  deriving DecidableEq, Repr

/-- Modelled from the spec: whether a query selects a node (`listAll` when there
is no requirement, `listByTagEquals` otherwise). -/
def Selector.selects (sel : Selector) (n : Node) : Bool :=
  sel.requirements.all (fun kv => decide (getLabel n.Labels kv.1 = some kv.2))

/-! ### Building the selector

The source does not write the selector itself: it fills a `metav1.LabelSelector`,
converts it with `metav1.LabelSelectorAsMap`, whose error it discards, and hands
the map to `labels.SelectorFromSet`.  These library functions are kept as they
behave in the client library the program compiles against (`List` and `Patch`
without a context argument). -/

/-- The character class `[-A-Za-z0-9_.]`. -/
def isNameChar (c : Char) : Bool :=
  c.isAlphanum || c == '-' || c == '_' || c == '.'

/-- The pattern `([A-Za-z0-9][-A-Za-z0-9_.]*)?[A-Za-z0-9]` on at most 63 characters. -/
def validNamePart (s : List Char) : Bool :=
  match s, s.getLast? with
  | first :: _, some last =>
    decide (s.length ≤ 63) && first.isAlphanum && last.isAlphanum && s.all isNameChar
  | _, _ => false

/-- Library `validation.IsValidLabelValue`: empty, or a name part. -/
def validLabelValue (v : String) : Bool :=
  v.data.isEmpty || validNamePart v.data

/-- The pieces of a character list between occurrences of `sep`. -/
def splitAt (sep : Char) : List Char → List (List Char)
  | [] => [[]]
  | c :: rest =>
    if c = sep then [] :: splitAt sep rest
    else
      match splitAt sep rest with
      | [] => [[c]]
      | part :: parts => (c :: part) :: parts

/-- The pattern `[a-z0-9]([-a-z0-9]*[a-z0-9])?` of one DNS label. -/
def validDnsLabel (s : List Char) : Bool :=
  match s, s.getLast? with
  | first :: _, some last =>
    (first.isLower || first.isDigit) && (last.isLower || last.isDigit) &&
      s.all (fun c => c.isLower || c.isDigit || c == '-')
  | _, _ => false

/-- Library `validation.IsDNS1123Subdomain`. -/
def validSubdomain (s : List Char) : Bool :=
  decide (s.length ≤ 253) && (splitAt '.' s).all validDnsLabel

/-- Library `validation.IsQualifiedName`, the check of a label key: a name part,
optionally behind a DNS subdomain and a slash. -/
def validLabelKey (k : String) : Bool :=
  match splitAt '/' k.data with
  | [name] => validNamePart name
  | [pre, name] => validSubdomain pre && validNamePart name
  | _ => false

/-- The Go type `metav1.LabelSelector` in the two shapes the program fills in. -/
inductive LabelSelector where
  /-- `LabelSelector{MatchLabels: {key: value}}`. -/
  | matchLabels (key value : String)
  /-- `LabelSelector{MatchExpressions: [{Key: key, Operator: Exists}]}`. -/
  | matchExists (key : String)
  deriving DecidableEq, Repr

/-- Library `metav1.LabelSelectorAsMap`: the map and the error.  An `Exists`
requirement cannot be written as a map: the map stays empty and an error is
returned. -/
def LabelSelectorAsMap : LabelSelector → List (String × String) × Option String
  | .matchLabels key value => ([(key, value)], none)
  | .matchExists _ =>
    ([], some "operator \"Exists\" cannot be converted into the old label selector format")

/-- Library `labels.SelectorFromSet`: one equality requirement per entry; if an
entry has an invalid key or value the error is swallowed and the selector without
any requirement is returned. -/
def SelectorFromSet (ls : List (String × String)) : Selector :=
  if ls.all (fun kv => validLabelKey kv.1 && validLabelValue kv.2) then { requirements := ls }
  else { requirements := [] }

/-- The two patch bodies the program sends. -/
inductive PatchBody where
  /-- Strategic merge patch `{"metadata":{"labels":{"logical-cluster": value}}}`. -/
  | mergeLabel (value : String)
  /-- JSON patch `[{"op":"remove","path":"/metadata/labels/logical-cluster"}]`. -/
  | removeLabel
  deriving DecidableEq, Repr

/-- Modelled from the spec: the state of the external control plane.
`Items` is the node inventory in the order a `List` request returns it.
`Faults` schedules transport failures: its head decides the next request
(`some msg` makes that request fail with `msg` and have no effect), an exhausted
schedule serves every request.  `StrictRemove` settles the point the
specification leaves open: whether removing an absent label is rejected. -/
structure Clientset where
  Items : List Node
  Faults : List (Option String)
  StrictRemove : Bool
  deriving DecidableEq, Repr

/-- The control plane once the next request has been received. -/
def Clientset.served (cs : Clientset) : Clientset :=
  { cs with Faults := cs.Faults.tail }

/-- The transport failure scheduled for the next request, if any. -/
def Clientset.nextFault (cs : Clientset) : Option String :=
  cs.Faults.headD none

/-- Modelled from the spec: `clientset.CoreV1().Nodes().List(listOptions)`,
giving the selected nodes in inventory order; read-only. -/
def Clientset.listNodes (cs : Clientset) (sel : Selector) : Except Err (List Node) × Clientset :=
  match cs.nextFault with
  | some msg => (.error (.api msg), cs.served)
  | none => (.ok (cs.Items.filter sel.selects), cs.served)

/-- Modelled from the spec: the effect of a patch body on one node (`setTag`
overwrites the value, `removeTag` deletes the key). -/
def PatchBody.apply : PatchBody → Node → Node
  | .mergeLabel value, n => { n with Labels := setLabel n.Labels labelKey value }
  | .removeLabel, n => { n with Labels := eraseLabel n.Labels labelKey }

/-- Modelled from the spec: the inventory after a patch addressed to the node
called `name`; no other node changes. -/
def patchItems (items : List Node) (name : String) (body : PatchBody) : List Node :=
  items.map (fun n => if n.Name = name then body.apply n else n)

/-- Modelled from the spec: whether the control plane rejects the patch, because
the node does not exist, or because the body removes a label the node lacks and
removal is strict. -/
def Clientset.rejects (cs : Clientset) (name : String) (body : PatchBody) : Option String :=
  match cs.Items.find? (fun n => decide (n.Name = name)) with
  | none => some ("nodes \"" ++ name ++ "\" not found")
  | some n =>
    match body with
    | .mergeLabel _ => none
    | .removeLabel =>
      if cs.StrictRemove && n.cluster.isNone then some "remove: path not found" else none

/-- Modelled from the spec: `clientset.CoreV1().Nodes().Patch(name, patchType, body)`;
only the returned error is kept, as in the source. -/
def Clientset.patchNode (cs : Clientset) (name : String) (body : PatchBody) :
    Option Err × Clientset :=
  match cs.nextFault with
  | some msg => (some (.api msg), cs.served)
  | none =>
    match cs.rejects name body with
    | some msg => (some (.api msg), cs.served)
    | none => (none, { cs.served with Items := patchItems cs.Items name body })

/-! ## The functions of `logical_cluster.go` -/

/-- Go `isInSlice`. -/
def isInSlice (data : String) : List String → Bool
  | [] => false
  | val :: slice => if val = data then true else isInSlice data slice

/-- Go `addOrUpdateNodeLabel`: one merge patch per node, in order, stopping at the
first error. -/
def addOrUpdateNodeLabel (cs : Clientset) (hostsUpdated : List String) (labelName : String) :
    Option Err × Clientset :=
  match hostsUpdated with
  | [] => (none, cs)
  | targetNode :: rest =>
    match cs.patchNode targetNode (.mergeLabel labelName) with
    | (some err, cs1) => (some err, cs1)
    | (none, cs1) => addOrUpdateNodeLabel cs1 rest labelName

/-- Go `removeLabelFromNode`: one removal patch per node, in order, stopping at the
first error. -/
def removeLabelFromNode (cs : Clientset) (targetNodes : List String) : Option Err × Clientset :=
  match targetNodes with
  | [] => (none, cs)
  | targetNode :: rest =>
    match cs.patchNode targetNode .removeLabel with
    | (some err, cs1) => (some err, cs1)
    | (none, cs1) => removeLabelFromNode cs1 rest

/-- Go `getNodesFromCluster`: the names of the nodes returned by the query whose
selector is built from `MatchLabels {logical-cluster: clusterName}`. -/
def getNodesFromCluster (cs : Clientset) (clusterName : String) :
    Except Err (List String) × Clientset :=
  match cs.listNodes
      (SelectorFromSet (LabelSelectorAsMap (.matchLabels labelKey clusterName)).1) with
  | (.error err, cs1) => (.error err, cs1)
  | (.ok items, cs1) => (.ok (items.map (fun node => node.Name)), cs1)

/-- Go `createCluster`. -/
def createCluster (cs : Clientset) (clusterName : String) (hostsInCluster : List String) :
    Option Err × Clientset :=
  match addOrUpdateNodeLabel cs hostsInCluster clusterName with
  | (some err, cs1) => (some err, cs1)
  | (none, cs1) => (none, cs1)

/-- Go `getCluster`. -/
def getCluster (cs : Clientset) (clusterName : String) : Except Err logicalCluster × Clientset :=
  match getNodesFromCluster cs clusterName with
  | (.error err, cs1) => (.error err, cs1)
  | (.ok hostsInCluster, cs1) =>
    if hostsInCluster.length = 0 then (.error .clusterNotFound, cs1)
    else (.ok { ClusterName := clusterName, Hosts := hostsInCluster }, cs1)

/-- The loop of Go `listClusters` over the discovered nodes, with its two
accumulators `clusterNames` and `LogicalClusters`. -/
def listClustersLoop (cs : Clientset) (items : List Node) (clusterNames : List String)
    (LogicalClusters : List logicalCluster) : Except Err (List logicalCluster) × Clientset :=
  match items with
  | [] => (.ok LogicalClusters, cs)
  | Host :: rest =>
    let logicalClusterName := (getLabel Host.Labels labelKey).getD ""
    if isInSlice logicalClusterName clusterNames then
      listClustersLoop cs rest clusterNames LogicalClusters
    else
      match getNodesFromCluster cs logicalClusterName with
      | (.error err, cs1) => (.error err, cs1)
      | (.ok hostsInCluster, cs1) =>
        listClustersLoop cs1 rest (clusterNames ++ [logicalClusterName])
          (LogicalClusters ++
            [{ ClusterName := logicalClusterName, Hosts := hostsInCluster }])

/-- Go `listClusters`; the error of `LabelSelectorAsMap` is dropped as in the
source (`labelSelectorMap, _ :=`). -/
def listClusters (cs : Clientset) : Except Err (List logicalCluster) × Clientset :=
  match cs.listNodes (SelectorFromSet (LabelSelectorAsMap (.matchExists labelKey)).1) with
  | (.error err, cs1) => (.error err, cs1)
  | (.ok items, cs1) =>
    if items.length = 0 then (.error .noClusterExists, cs1)
    else listClustersLoop cs1 items [] []

/-- Go `deleteCluster`. -/
def deleteCluster (cs : Clientset) (clusterName : String) : Option Err × Clientset :=
  match getNodesFromCluster cs clusterName with
  | (.error err, cs1) => (some err, cs1)
  | (.ok hostsLabelRemoved, cs1) =>
    match removeLabelFromNode cs1 hostsLabelRemoved with
    | (some err, cs2) => (some err, cs2)
    | (none, cs2) => (none, cs2)

/-- Go `updateClusterName`. -/
def updateClusterName (cs : Clientset) (clusterName : String) (hostsInCluster : List String) :
    Except Err logicalCluster × Clientset :=
  match addOrUpdateNodeLabel cs hostsInCluster clusterName with
  | (some err, cs1) => (.error err, cs1)
  | (none, cs1) =>
    match getCluster cs1 clusterName with
    | (.error err, cs2) => (.error err, cs2)
    | (.ok view, cs2) => (.ok view, cs2)

/-- Go `scaleCluster`; `isScale = true` expands, `false` shrinks. -/
def scaleCluster (cs : Clientset) (clusterName : String) (nodesList : List String)
    (isScale : Bool) : Except Err logicalCluster × Clientset :=
  match (if isScale then addOrUpdateNodeLabel cs nodesList clusterName
         else removeLabelFromNode cs nodesList) with
  | (some err, cs1) => (.error err, cs1)
  | (none, cs1) =>
    match getCluster cs1 clusterName with
    | (.error err, cs2) => (.error err, cs2)
    | (.ok view, cs2) => (.ok view, cs2)

/-! ## Vocabulary of the statements -/

deriving instance DecidableEq for Except

/-- The member list of a cluster: the names of the inventory nodes whose
`logical-cluster` label equals `clusterName`, in inventory order. -/
def hostsOf (items : List Node) (clusterName : String) : List String :=
  (items.filter (fun n => decide (n.cluster = some clusterName))).map (fun n => n.Name)

/-- No transport failure is scheduled: every request reaches the control plane. -/
def Clientset.Quiet (cs : Clientset) : Prop := ∀ f ∈ cs.Faults, f = none

instance (cs : Clientset) : Decidable cs.Quiet := by
  unfold Clientset.Quiet; infer_instance

/-- Node names identify nodes. -/
def Clientset.UniqueNames (cs : Clientset) : Prop := (cs.Items.map (fun n => n.Name)).Nodup

instance (cs : Clientset) : Decidable cs.UniqueNames := by
  unfold Clientset.UniqueNames; infer_instance

/-- The inventory in which every node named in `ids` has received `body` and
every other node is as it was. -/
def applyTo (ids : List String) (body : PatchBody) (items : List Node) : List Node :=
  items.map (fun n => if n.Name ∈ ids then body.apply n else n)

/-- The loop shared by `addOrUpdateNodeLabel` and `removeLabelFromNode`. -/
def patchAll (cs : Clientset) (ids : List String) (body : PatchBody) : Option Err × Clientset :=
  match ids with
  | [] => (none, cs)
  | x :: rest =>
    match cs.patchNode x body with
    | (some err, cs1) => (some err, cs1)
    | (none, cs1) => patchAll cs1 rest body

/-- The names a query for `clusterName` returns: those of the nodes selected by
the selector `getNodesFromCluster` builds. -/
def queryHosts (items : List Node) (clusterName : String) : List String :=
  (items.filter
    (SelectorFromSet (LabelSelectorAsMap (.matchLabels labelKey clusterName)).1).selects).map
    (fun n => n.Name)

/-- Every `logical-cluster` value stored on a node is a valid label value, as the
control plane only stores such values. -/
def Clientset.ValidLabels (cs : Clientset) : Prop :=
  ∀ n ∈ cs.Items, n.cluster.all validLabelValue = true

instance (cs : Clientset) : Decidable cs.ValidLabels := by
  unfold Clientset.ValidLabels; infer_instance

/-- The values a node stores under the key `logical-cluster`. -/
def Node.values (n : Node) : List String :=
  (n.Labels.filter (fun kv => decide (kv.1 = labelKey))).map (fun kv => kv.2)

/-- A call of one of the six operations of the program. -/
inductive Op where
  | create (clusterName : String) (hostsInCluster : List String)
  | list
  | get (clusterName : String)
  | delete (clusterName : String)
  | rename (clusterName : String) (hostsInCluster : List String)
  | scale (clusterName : String) (nodesList : List String) (isScale : Bool)
  deriving DecidableEq, Repr

/-- The control plane after one operation, whatever the operation returned. -/
def Op.run : Op → Clientset → Clientset
  | .create clusterName hosts, cs => (createCluster cs clusterName hosts).2
  | .list, cs => (listClusters cs).2
  | .get clusterName, cs => (getCluster cs clusterName).2
  | .delete clusterName, cs => (deleteCluster cs clusterName).2
  | .rename clusterName hosts, cs => (updateClusterName cs clusterName hosts).2
  | .scale clusterName nodes isScale, cs => (scaleCluster cs clusterName nodes isScale).2

/-- The control plane after a sequence of operations. -/
def runOps (cs : Clientset) (ops : List Op) : Clientset :=
  ops.foldl (fun st op => op.run st) cs

/-! ## Example inventories -/

/-- A node that carries no `logical-cluster` label. -/
def bareNode (name : String) : Node :=
  { Name := name, Labels := [("kubernetes.io/hostname", name)] }

/-- A node labelled `logical-cluster = clusterName`. -/
def memberNode (name clusterName : String) : Node :=
  { Name := name, Labels := [("kubernetes.io/hostname", name), (labelKey, clusterName)] }

/-- Three nodes in two clusters: `n1:A, n2:B, n3:A`. -/
def twoClusters : Clientset :=
  { Items := [memberNode "n1" "A", memberNode "n2" "B", memberNode "n3" "A"],
    Faults := [], StrictRemove := true }

/-- One member of `A` and one node without the label. -/
def oneUnlabelled : Clientset :=
  { Items := [memberNode "n1" "A", bareNode "n2"], Faults := [], StrictRemove := true }

/-- Two nodes, neither carrying the label. -/
def noneLabelled : Clientset :=
  { Items := [bareNode "n1", bareNode "n2"], Faults := [], StrictRemove := true }

/-- Three unlabelled nodes; the second request to the control plane fails. -/
def secondRequestFails : Clientset :=
  { Items := [bareNode "n1", bareNode "n2", bareNode "n3"],
    Faults := [none, some "connection refused"], StrictRemove := true }

/-- A cluster `mq-cluster` with members `n1, n2` next to an unrelated node. -/
def mqCluster : Clientset :=
  { Items := [memberNode "n1" "mq-cluster", memberNode "n2" "mq-cluster",
              memberNode "n3" "redis-cluster"],
    Faults := [], StrictRemove := true }

/-- One member of `A`; the removal patch is served, the read after it times out. -/
def readFailsAfterPatch : Clientset :=
  { Items := [memberNode "n1" "A", bareNode "n2"],
    Faults := [none, some "i/o timeout"], StrictRemove := true }

/-- Cluster `C` with the single member `n1`, and a free node `n2`. -/
def oneMember : Clientset :=
  { Items := [memberNode "n1" "C", bareNode "n2"], Faults := [], StrictRemove := true }

/-! ## Label maps -/

theorem getLabel_setLabel (l : List (String × String)) (k v : String) :
    getLabel (setLabel l k v) k = some v := by
  simp [setLabel, getLabel]

theorem getLabel_eraseLabel (l : List (String × String)) (k : String) :
    getLabel (eraseLabel l k) k = none := by
  induction l with
  | nil => simp [eraseLabel, getLabel]
  | cons kv rest ih =>
    obtain ⟨a, b⟩ := kv
    by_cases h : a = k
    · simpa [eraseLabel, h] using ih
    · simpa [eraseLabel, h, getLabel] using ih

theorem eraseLabel_eraseLabel (l : List (String × String)) (k : String) :
    eraseLabel (eraseLabel l k) k = eraseLabel l k := by
  simp [eraseLabel, List.filter_filter]

theorem setLabel_setLabel (l : List (String × String)) (k v : String) :
    setLabel (setLabel l k v) k v = setLabel l k v := by
  simp [setLabel, eraseLabel, List.filter_filter]

theorem apply_name (body : PatchBody) (n : Node) : (body.apply n).Name = n.Name := by
  cases body <;> rfl

theorem apply_apply (body : PatchBody) (n : Node) : body.apply (body.apply n) = body.apply n := by
  cases body with
  | mergeLabel v => simp [PatchBody.apply, setLabel_setLabel]
  | removeLabel => simp [PatchBody.apply, eraseLabel_eraseLabel]

theorem cluster_merge (v : String) (n : Node) :
    ((PatchBody.mergeLabel v).apply n).cluster = some v := by
  simp [PatchBody.apply, Node.cluster, getLabel_setLabel]

theorem cluster_remove (n : Node) : (PatchBody.removeLabel.apply n).cluster = none := by
  simp [PatchBody.apply, Node.cluster, getLabel_eraseLabel]

/-! ## Single requests -/

theorem quiet_nextFault {cs : Clientset} (h : cs.Quiet) : cs.nextFault = none := by
  unfold Clientset.nextFault
  cases hf : cs.Faults with
  | nil => rfl
  | cons f rest => exact h f (by simp [hf])

theorem quiet_served {cs : Clientset} (h : cs.Quiet) : cs.served.Quiet := by
  intro f hf
  exact h f (List.mem_of_mem_tail hf)

theorem applyTo_nil (body : PatchBody) (items : List Node) : applyTo [] body items = items := by
  simp [applyTo]

theorem applyTo_cons (x : String) (done : List String) (body : PatchBody) (items : List Node) :
    applyTo done body (patchItems items x body) = applyTo (x :: done) body items := by
  simp only [applyTo, patchItems, List.map_map]
  apply List.map_congr_left
  intro n _
  by_cases hx : n.Name = x
  · by_cases hd : x ∈ done <;> simp [hx, hd, apply_name, apply_apply]
  · have hx2 : ¬ x = n.Name := fun h => hx h.symm
    by_cases hd : n.Name ∈ done <;> simp [hx, hd]

theorem applyTo_names (ids : List String) (body : PatchBody) (items : List Node) :
    (applyTo ids body items).map (fun n => n.Name) = items.map (fun n => n.Name) := by
  simp only [applyTo, List.map_map]
  apply List.map_congr_left
  intro n _
  by_cases h : n.Name ∈ ids <;> simp [h, apply_name]

theorem listNodes_items (cs : Clientset) (sel : Selector) :
    (cs.listNodes sel).2 = cs.served := by
  unfold Clientset.listNodes
  cases cs.nextFault <;> rfl

theorem listNodes_ok {cs : Clientset} (h : cs.nextFault = none) (sel : Selector) :
    cs.listNodes sel = (.ok (cs.Items.filter sel.selects), cs.served) := by
  simp [Clientset.listNodes, h]

theorem getNodesFromCluster_state (cs : Clientset) (name : String) :
    (getNodesFromCluster cs name).2 = cs.served := by
  unfold getNodesFromCluster Clientset.listNodes
  cases cs.nextFault <;> rfl

theorem validLabelKey_labelKey : validLabelKey labelKey = true := by decide

theorem selector_of_valid {name : String} (h : validLabelValue name = true) :
    SelectorFromSet (LabelSelectorAsMap (.matchLabels labelKey name)).1 =
      { requirements := [(labelKey, name)] } := by
  simp [SelectorFromSet, LabelSelectorAsMap, validLabelKey_labelKey, h]

theorem selector_of_invalid {name : String} (h : validLabelValue name = false) :
    SelectorFromSet (LabelSelectorAsMap (.matchLabels labelKey name)).1 =
      { requirements := [] } := by
  simp [SelectorFromSet, LabelSelectorAsMap, validLabelKey_labelKey, h]

theorem queryHosts_valid {name : String} (h : validLabelValue name = true) (items : List Node) :
    queryHosts items name = hostsOf items name := by
  unfold queryHosts hostsOf
  rw [selector_of_valid h]
  have hsel : (Selector.mk [(labelKey, name)]).selects =
      fun n => decide (n.cluster = some name) := by
    funext n
    simp [Selector.selects, Node.cluster]
  rw [hsel]

theorem queryHosts_invalid {name : String} (h : validLabelValue name = false)
    (items : List Node) : queryHosts items name = items.map (fun n => n.Name) := by
  unfold queryHosts
  rw [selector_of_invalid h]
  have hsel : (Selector.mk []).selects = fun _ => true := by
    funext n
    simp [Selector.selects]
  rw [hsel, List.filter_true]

theorem getNodesFromCluster_ok {cs : Clientset} (h : cs.nextFault = none) (name : String) :
    getNodesFromCluster cs name = (.ok (queryHosts cs.Items name), cs.served) := by
  simp [getNodesFromCluster, listNodes_ok h, queryHosts]

theorem getNodesFromCluster_fault {cs : Clientset} {msg : String} (h : cs.nextFault = some msg)
    (name : String) : getNodesFromCluster cs name = (.error (.api msg), cs.served) := by
  simp [getNodesFromCluster, Clientset.listNodes, h]

theorem getCluster_state (cs : Clientset) (name : String) :
    (getCluster cs name).2 = cs.served := by
  unfold getCluster
  cases h : cs.nextFault with
  | none =>
    rw [getNodesFromCluster_ok h]
    by_cases hl : (queryHosts cs.Items name).length = 0 <;> simp [hl]
  | some msg => rw [getNodesFromCluster_fault h]

theorem getCluster_query {cs : Clientset} (h : cs.nextFault = none) (name : String) :
    (getCluster cs name).1 =
      if queryHosts cs.Items name = [] then .error .clusterNotFound
      else .ok { ClusterName := name, Hosts := queryHosts cs.Items name } := by
  unfold getCluster
  rw [getNodesFromCluster_ok h]
  by_cases hl : queryHosts cs.Items name = [] <;> simp [hl]

theorem getCluster_ok {cs : Clientset} (h : cs.nextFault = none) {name : String}
    (hv : validLabelValue name = true) :
    (getCluster cs name).1 =
      if hostsOf cs.Items name = [] then .error .clusterNotFound
      else .ok { ClusterName := name, Hosts := hostsOf cs.Items name } := by
  rw [getCluster_query h, queryHosts_valid hv]

theorem mem_hostsOf {items : List Node} {name x : String} :
    x ∈ hostsOf items name ↔ ∃ n ∈ items, n.cluster = some name ∧ n.Name = x := by
  simp [hostsOf, and_assoc]

theorem hostsOf_eq_nil {items : List Node} {name : String} :
    hostsOf items name = [] ↔ ∀ n ∈ items, n.cluster ≠ some name := by
  simp [hostsOf, List.filter_eq_nil_iff]

theorem valid_of_member {cs : Clientset} (h : cs.ValidLabels) {name x : String}
    (hx : x ∈ hostsOf cs.Items name) : validLabelValue name = true := by
  obtain ⟨n, hn, hc, _⟩ := mem_hostsOf.1 hx
  have := h n hn
  rw [hc] at this
  simpa using this

/-! ## Patch requests and the patch loops -/

theorem mem_patchItems {items : List Node} {x : String} {body : PatchBody} {m : Node} :
    m ∈ patchItems items x body ↔
      ∃ n ∈ items, m = if n.Name = x then body.apply n else n := by
  simp only [patchItems, List.mem_map]
  constructor
  · rintro ⟨n, hn, rfl⟩; exact ⟨n, hn, rfl⟩
  · rintro ⟨n, hn, rfl⟩; exact ⟨n, hn, rfl⟩

theorem mem_applyTo {ids : List String} {body : PatchBody} {items : List Node} {m : Node} :
    m ∈ applyTo ids body items ↔
      ∃ n ∈ items, m = if n.Name ∈ ids then body.apply n else n := by
  simp only [applyTo, List.mem_map]
  constructor
  · rintro ⟨n, hn, rfl⟩; exact ⟨n, hn, rfl⟩
  · rintro ⟨n, hn, rfl⟩; exact ⟨n, hn, rfl⟩

theorem exists_name_patchItems {items : List Node} {x y : String} {body : PatchBody} :
    (∃ m ∈ patchItems items x body, m.Name = y) ↔ ∃ n ∈ items, n.Name = y := by
  constructor
  · rintro ⟨m, hm, rfl⟩
    obtain ⟨n, hn, rfl⟩ := mem_patchItems.1 hm
    refine ⟨n, hn, ?_⟩
    by_cases h : n.Name = x <;> simp [h, apply_name]
  · rintro ⟨n, hn, rfl⟩
    refine ⟨_, mem_patchItems.2 ⟨n, hn, rfl⟩, ?_⟩
    by_cases h : n.Name = x <;> simp [h, apply_name]

theorem patchNode_strict (cs : Clientset) (x : String) (body : PatchBody) :
    (cs.patchNode x body).2.StrictRemove = cs.StrictRemove := by
  unfold Clientset.patchNode
  cases cs.nextFault with
  | some msg => rfl
  | none => cases cs.rejects x body <;> rfl

theorem patchNode_faults (cs : Clientset) (x : String) (body : PatchBody) :
    (cs.patchNode x body).2.Faults = cs.Faults.tail := by
  unfold Clientset.patchNode
  cases cs.nextFault with
  | some msg => rfl
  | none => cases cs.rejects x body <;> rfl

theorem patchNode_err {cs : Clientset} {x : String} {body : PatchBody} {e : Err}
    (h : (cs.patchNode x body).1 = some e) : (cs.patchNode x body).2 = cs.served := by
  unfold Clientset.patchNode at h ⊢
  cases hf : cs.nextFault with
  | some msg => simp [hf]
  | none =>
    cases hr : cs.rejects x body with
    | some msg => simp [hf, hr]
    | none => simp [hf, hr] at h

theorem rejects_none_exists {cs : Clientset} {x : String} {body : PatchBody}
    (h : cs.rejects x body = none) : ∃ n ∈ cs.Items, n.Name = x := by
  unfold Clientset.rejects at h
  cases hfind : cs.Items.find? (fun n => decide (n.Name = x)) with
  | none => simp [hfind] at h
  | some n =>
    refine ⟨n, List.mem_of_find?_eq_some hfind, ?_⟩
    simpa using List.find?_some hfind

theorem patchNode_none {cs : Clientset} {x : String} {body : PatchBody}
    (h : (cs.patchNode x body).1 = none) :
    (cs.patchNode x body).2 = { cs.served with Items := patchItems cs.Items x body } ∧
      ∃ n ∈ cs.Items, n.Name = x := by
  unfold Clientset.patchNode at h ⊢
  cases hf : cs.nextFault with
  | some msg => simp [hf] at h
  | none =>
    cases hr : cs.rejects x body with
    | some msg => simp [hf, hr] at h
    | none => exact ⟨by simp, rejects_none_exists hr⟩

theorem patchNode_ok {cs : Clientset} {x : String} {body : PatchBody}
    (hq : cs.nextFault = none) (hr : cs.rejects x body = none) :
    cs.patchNode x body = (none, { cs.served with Items := patchItems cs.Items x body }) := by
  simp [Clientset.patchNode, hq, hr]

theorem rejects_merge {cs : Clientset} {x : String} (v : String)
    (h : ∃ n ∈ cs.Items, n.Name = x) : cs.rejects x (.mergeLabel v) = none := by
  unfold Clientset.rejects
  cases hfind : cs.Items.find? (fun n => decide (n.Name = x)) with
  | none =>
    obtain ⟨n, hn, hx⟩ := h
    have := List.find?_eq_none.1 hfind n hn
    simp [hx] at this
  | some n => rfl

theorem rejects_remove {cs : Clientset} {x : String}
    (h : ∃ n ∈ cs.Items, n.Name = x)
    (hs : cs.StrictRemove = true → ∀ n ∈ cs.Items, n.Name = x → n.cluster.isSome = true) :
    cs.rejects x .removeLabel = none := by
  unfold Clientset.rejects
  cases hfind : cs.Items.find? (fun n => decide (n.Name = x)) with
  | none =>
    obtain ⟨n, hn, hx⟩ := h
    have := List.find?_eq_none.1 hfind n hn
    simp [hx] at this
  | some n =>
    have hmem := List.mem_of_find?_eq_some hfind
    have hname : n.Name = x := by simpa using List.find?_some hfind
    cases hstrict : cs.StrictRemove with
    | false => simp
    | true =>
      have := hs hstrict n hmem hname
      cases hc : n.cluster with
      | none => simp [hc] at this
      | some v => simp [hc]

theorem addOrUpdateNodeLabel_eq (cs : Clientset) (ids : List String) (v : String) :
    addOrUpdateNodeLabel cs ids v = patchAll cs ids (.mergeLabel v) := by
  induction ids generalizing cs with
  | nil => rfl
  | cons x rest ih =>
    unfold addOrUpdateNodeLabel patchAll
    rcases hp : cs.patchNode x (.mergeLabel v) with ⟨_ | e, cs1⟩
    · simpa using ih cs1
    · rfl

theorem removeLabelFromNode_eq (cs : Clientset) (ids : List String) :
    removeLabelFromNode cs ids = patchAll cs ids .removeLabel := by
  induction ids generalizing cs with
  | nil => rfl
  | cons x rest ih =>
    unfold removeLabelFromNode patchAll
    rcases hp : cs.patchNode x .removeLabel with ⟨_ | e, cs1⟩
    · simpa using ih cs1
    · rfl

theorem createCluster_eq (cs : Clientset) (name : String) (ids : List String) :
    createCluster cs name ids = patchAll cs ids (.mergeLabel name) := by
  unfold createCluster
  rw [addOrUpdateNodeLabel_eq]
  rcases patchAll cs ids (.mergeLabel name) with ⟨_ | e, cs1⟩ <;> rfl

theorem patchAll_cons (cs : Clientset) (x : String) (rest : List String) (body : PatchBody) :
    patchAll cs (x :: rest) body =
      match cs.patchNode x body with
      | (some err, cs1) => (some err, cs1)
      | (none, cs1) => patchAll cs1 rest body := rfl

theorem patchAll_strict (cs : Clientset) (ids : List String) (body : PatchBody) :
    (patchAll cs ids body).2.StrictRemove = cs.StrictRemove := by
  induction ids generalizing cs with
  | nil => rfl
  | cons x rest ih =>
    unfold patchAll
    have hs := patchNode_strict cs x body
    rcases hp : cs.patchNode x body with ⟨_ | e, cs1⟩
    · rw [hp] at hs
      simp only at hs ⊢
      rw [ih cs1, hs]
    · rw [hp] at hs; simpa using hs

theorem patchAll_append (cs : Clientset) (pre post : List String) (body : PatchBody) :
    patchAll cs (pre ++ post) body =
      match patchAll cs pre body with
      | (some err, cs1) => (some err, cs1)
      | (none, cs1) => patchAll cs1 post body := by
  induction pre generalizing cs with
  | nil => rfl
  | cons x rest ih =>
    simp only [List.cons_append]
    rw [patchAll_cons, patchAll_cons]
    rcases hp : cs.patchNode x body with ⟨_ | e, cs1⟩
    · exact ih cs1
    · rfl

/-- Whatever the outcome, the loop has patched exactly an initial segment of its
list, and nothing else has changed. -/
theorem patchAll_done (cs : Clientset) (ids : List String) (body : PatchBody) :
    ∃ done rest, ids = done ++ rest ∧
      (patchAll cs ids body).2.Items = applyTo done body cs.Items ∧
      ((patchAll cs ids body).1 = none → rest = []) ∧
      ∀ x ∈ done, ∃ n ∈ cs.Items, n.Name = x := by
  induction ids generalizing cs with
  | nil => exact ⟨[], [], rfl, by simp [patchAll, applyTo_nil], fun _ => rfl, by simp⟩
  | cons x rest ih =>
    unfold patchAll
    rcases hp : cs.patchNode x body with ⟨_ | e, cs1⟩
    · have h1 : (cs.patchNode x body).1 = none := by rw [hp]
      obtain ⟨hcs, hex⟩ := patchNode_none h1
      rw [hp] at hcs
      simp only at hcs
      obtain ⟨done, rest2, hsplit, hitems, hnone, hexist⟩ := ih cs1
      refine ⟨x :: done, rest2, by simp [hsplit], ?_, hnone, ?_⟩
      · simp only
        rw [hitems, hcs]
        exact applyTo_cons x done body cs.Items
      · intro y hy
        rcases List.mem_cons.1 hy with rfl | hy
        · exact hex
        · have := hexist y hy
          rw [hcs] at this
          exact exists_name_patchItems.1 this
    · have h1 : (cs.patchNode x body).1 = some e := by rw [hp]
      have hcs := patchNode_err h1
      rw [hp] at hcs
      simp only at hcs
      refine ⟨[], x :: rest, rfl, ?_, by simp, by simp⟩
      simp [hcs, applyTo_nil, Clientset.served]

/-- A sufficient condition on the control plane for the whole loop to succeed. -/
theorem patchAll_ok (cs : Clientset) (ids : List String) (body : PatchBody)
    (hq : cs.Quiet) (hex : ∀ x ∈ ids, ∃ n ∈ cs.Items, n.Name = x)
    (hrm : body = .removeLabel → cs.StrictRemove = true →
      ids.Nodup ∧ ∀ n ∈ cs.Items, n.Name ∈ ids → n.cluster.isSome = true) :
    ∃ cs1, patchAll cs ids body = (none, cs1) ∧ cs1.Items = applyTo ids body cs.Items ∧
      cs1.Quiet ∧ cs1.StrictRemove = cs.StrictRemove := by
  induction ids generalizing cs with
  | nil => exact ⟨cs, rfl, by simp [applyTo_nil], hq, rfl⟩
  | cons x rest ih =>
    have hrej : cs.rejects x body = none := by
      cases body with
      | mergeLabel v => exact rejects_merge v (hex x (by simp))
      | removeLabel =>
        refine rejects_remove (hex x (by simp)) ?_
        intro hs n hn hname
        exact (hrm rfl hs).2 n hn (by simp [hname])
    have hp := patchNode_ok (quiet_nextFault hq) hrej
    have hq1 : Clientset.Quiet { cs.served with Items := patchItems cs.Items x body } :=
      quiet_served hq
    obtain ⟨cs1, hrun, hitems, hquiet, hstrict⟩ := ih { cs.served with Items := patchItems cs.Items x body } hq1
      (by
        intro y hy
        exact exists_name_patchItems.2 (hex y (by simp [hy])))
      (by
        intro hb hs
        obtain ⟨hnd, hsome⟩ := hrm hb hs
        refine ⟨(List.nodup_cons.1 hnd).2, ?_⟩
        intro m hm hmr
        obtain ⟨n, hn, rfl⟩ := mem_patchItems.1 hm
        by_cases hx : n.Name = x
        · exfalso
          have : x ∈ rest := by simpa [hx, apply_name] using hmr
          exact (List.nodup_cons.1 hnd).1 this
        · simp only [hx, if_false] at hmr ⊢
          exact hsome n hn (by simp [hmr]))
    refine ⟨cs1, ?_, ?_, hquiet, hstrict⟩
    · unfold patchAll
      rw [hp]
      exact hrun
    · rw [hitems]
      exact applyTo_cons x rest body cs.Items

theorem patchAll_success_items {cs : Clientset} {ids : List String} {body : PatchBody}
    (h : (patchAll cs ids body).1 = none) :
    (patchAll cs ids body).2.Items = applyTo ids body cs.Items ∧
      ∀ x ∈ ids, ∃ n ∈ cs.Items, n.Name = x := by
  obtain ⟨done, rest, hsplit, hitems, hnone, hex⟩ := patchAll_done cs ids body
  have hrest := hnone h
  subst hrest
  simp only [List.append_nil] at hsplit
  subst hsplit
  exact ⟨hitems, hex⟩

theorem patchAll_first_failure {cs : Clientset} {pre : List String} (post : List String)
    {x : String} {body : PatchBody} {e : Err} (hpre : (patchAll cs pre body).1 = none)
    (hx : ((patchAll cs pre body).2.patchNode x body).1 = some e) :
    (patchAll cs (pre ++ x :: post) body).1 = some e ∧
      (patchAll cs (pre ++ x :: post) body).2.Items = applyTo pre body cs.Items := by
  have hitems := (patchAll_success_items hpre).1
  rw [patchAll_append]
  rcases hrun : patchAll cs pre body with ⟨_ | e1, cs1⟩
  · rw [hrun] at hx hitems
    simp only at hx hitems ⊢
    rw [patchAll_cons]
    have hstate := patchNode_err hx
    rcases hp : cs1.patchNode x body with ⟨_ | e2, cs2⟩
    · rw [hp] at hx; simp at hx
    · rw [hp] at hx hstate
      simp only at hx hstate ⊢
      refine ⟨hx, ?_⟩
      rw [hstate, ← hitems]
      rfl
  · rw [hrun] at hpre; simp at hpre

theorem patchAll_all_succeed {cs : Clientset} {ids : List String} {body : PatchBody}
    (h : ∀ pre x post, ids = pre ++ x :: post →
      ((patchAll cs pre body).2.patchNode x body).1 = none) :
    (patchAll cs ids body).1 = none := by
  induction ids using List.reverseRecOn with
  | nil => rfl
  | append_singleton init x ih =>
    have hinit : (patchAll cs init body).1 = none := by
      apply ih
      intro pre y post hsplit
      exact h pre y (post ++ [x]) (by simp [hsplit])
    have hlast := h init x [] rfl
    rw [patchAll_append]
    rcases hrun : patchAll cs init body with ⟨_ | e1, cs1⟩
    · rw [hrun] at hlast
      simp only at hlast ⊢
      rw [patchAll_cons]
      rcases hp : cs1.patchNode x body with ⟨_ | e2, cs2⟩
      · rfl
      · rw [hp] at hlast; simp at hlast
    · rw [hrun] at hinit; simp at hinit

/-! ## Reads after writes -/

theorem getCluster_eq (cs : Clientset) (name : String) :
    getCluster cs name = ((getCluster cs name).1, cs.served) := by
  rw [← getCluster_state cs name]

theorem hostsOf_map_congr (f : Node → Node) (name : String) (items : List Node)
    (h : ∀ n ∈ items, (f n).Name = n.Name ∧ ((f n).cluster = some name ↔ n.cluster = some name)) :
    hostsOf (items.map f) name = hostsOf items name := by
  induction items with
  | nil => rfl
  | cons n rest ih =>
    have hn := h n (by simp)
    have hrest := ih (fun m hm => h m (by simp [hm]))
    unfold hostsOf at hrest ⊢
    by_cases hc : n.cluster = some name
    · have hc2 := hn.2.2 hc
      simp [List.filter_cons, hc, hc2, hn.1]
      simpa using hrest
    · have hc2 : ¬ (f n).cluster = some name := fun h2 => hc (hn.2.1 h2)
      simp [List.filter_cons, hc, hc2]
      simpa using hrest

theorem hostsOf_nodup {cs : Clientset} (h : cs.UniqueNames) (name : String) :
    (hostsOf cs.Items name).Nodup :=
  List.Nodup.sublist (List.Sublist.map _ (List.filter_sublist _)) h

theorem member_of_name (cs : Clientset) (h : cs.UniqueNames) {name : String} {n : Node}
    (hn : n ∈ cs.Items) (hmem : n.Name ∈ hostsOf cs.Items name) : n.cluster = some name := by
  obtain ⟨m, hm, hc, hname⟩ := mem_hostsOf.1 hmem
  have := List.inj_on_of_nodup_map h hm hn hname
  rw [← this]
  exact hc

theorem scaleCluster_of_ok (cs cs1 : Clientset) (name : String) (ids : List String)
    (isScale : Bool)
    (h : (if isScale then addOrUpdateNodeLabel cs ids name else removeLabelFromNode cs ids) =
      (none, cs1)) :
    scaleCluster cs name ids isScale = ((getCluster cs1 name).1, cs1.served) := by
  unfold scaleCluster
  rw [h]
  simp only
  rw [getCluster_eq cs1 name]
  rcases (getCluster cs1 name).1 with e | v <;> rfl

theorem scaleCluster_of_err (cs cs1 : Clientset) (name : String) (ids : List String)
    (isScale : Bool) {e : Err}
    (h : (if isScale then addOrUpdateNodeLabel cs ids name else removeLabelFromNode cs ids) =
      (some e, cs1)) :
    scaleCluster cs name ids isScale = (.error e, cs1) := by
  unfold scaleCluster
  rw [h]

theorem updateClusterName_of_ok {cs cs1 : Clientset} {name : String} {ids : List String}
    (h : addOrUpdateNodeLabel cs ids name = (none, cs1)) :
    updateClusterName cs name ids = ((getCluster cs1 name).1, cs1.served) := by
  unfold updateClusterName
  rw [h]
  simp only
  rw [getCluster_eq cs1 name]
  rcases (getCluster cs1 name).1 with e | v <;> rfl

theorem updateClusterName_of_err {cs cs1 : Clientset} {name : String} {ids : List String}
    {e : Err} (h : addOrUpdateNodeLabel cs ids name = (some e, cs1)) :
    updateClusterName cs name ids = (.error e, cs1) := by
  unfold updateClusterName
  rw [h]

theorem untagged_of_applyTo_remove {ids : List String} {items : List Node} :
    ∀ n ∈ applyTo ids .removeLabel items, n.Name ∈ ids → n.cluster = none := by
  intro m hm hmem
  obtain ⟨n, _, rfl⟩ := mem_applyTo.1 hm
  by_cases hin : n.Name ∈ ids
  · simp only [hin, if_true]
    exact cluster_remove n
  · simp only [hin, if_false] at hmem

theorem exists_name_applyTo {ids : List String} {body : PatchBody} {items : List Node}
    {x : String} (h : ∃ n ∈ items, n.Name = x) : ∃ n ∈ applyTo ids body items, n.Name = x := by
  obtain ⟨n, hn, rfl⟩ := h
  refine ⟨_, mem_applyTo.2 ⟨n, hn, rfl⟩, ?_⟩
  by_cases hm : n.Name ∈ ids <;> simp [hm, apply_name]

theorem updateClusterName_items (cs : Clientset) (name : String) (ids : List String) :
    (updateClusterName cs name ids).2.Items = (patchAll cs ids (.mergeLabel name)).2.Items := by
  rcases hrun : addOrUpdateNodeLabel cs ids name with ⟨_ | e, cs1⟩
  · rw [updateClusterName_of_ok hrun, ← addOrUpdateNodeLabel_eq, hrun]; rfl
  · rw [updateClusterName_of_err hrun, ← addOrUpdateNodeLabel_eq, hrun]

theorem scaleCluster_shrink_items (cs : Clientset) (name : String) (ids : List String) :
    (scaleCluster cs name ids false).2.Items = (removeLabelFromNode cs ids).2.Items := by
  rcases hrun : removeLabelFromNode cs ids with ⟨_ | e, cs1⟩
  · rw [scaleCluster_of_ok cs cs1 name ids false (by simpa using hrun)]; rfl
  · rw [scaleCluster_of_err cs cs1 name ids false (by simpa using hrun)]

/-! ## What a sequence of operations preserves -/

theorem values_apply (body : PatchBody) (n : Node) : (body.apply n).values.length ≤ 1 := by
  cases body with
  | mergeLabel v =>
    simp [PatchBody.apply, Node.values, setLabel, eraseLabel, List.filter_cons, List.filter_filter]
  | removeLabel =>
    simp [PatchBody.apply, Node.values, eraseLabel, List.filter_filter]

theorem listClustersLoop_items (cs : Clientset) (items : List Node) (clusterNames : List String)
    (acc : List logicalCluster) :
    (listClustersLoop cs items clusterNames acc).2.Items = cs.Items := by
  induction items generalizing cs clusterNames acc with
  | nil => rfl
  | cons Host rest ih =>
    unfold listClustersLoop
    simp only
    split
    · exact ih cs _ _
    · have hstate := getNodesFromCluster_state cs ((getLabel Host.Labels labelKey).getD "")
      rcases hq : getNodesFromCluster cs ((getLabel Host.Labels labelKey).getD "") with
        ⟨e | hosts, cs1⟩
      · rw [hq] at hstate
        simp only at hstate ⊢
        rw [hstate]; rfl
      · rw [hq] at hstate
        simp only at hstate ⊢
        rw [ih cs1, hstate]; rfl

theorem listClusters_items (cs : Clientset) : (listClusters cs).2.Items = cs.Items := by
  unfold listClusters Clientset.listNodes
  cases cs.nextFault with
  | some msg => rfl
  | none =>
    simp only
    split
    · rfl
    · rw [listClustersLoop_items]; rfl

theorem deleteCluster_items (cs : Clientset) (name : String) :
    ∃ done, (deleteCluster cs name).2.Items = applyTo done .removeLabel cs.Items := by
  unfold deleteCluster
  cases hf : cs.nextFault with
  | some msg =>
    rw [getNodesFromCluster_fault hf]
    exact ⟨[], by simp [applyTo_nil, Clientset.served]⟩
  | none =>
    rw [getNodesFromCluster_ok hf]
    simp only
    rw [removeLabelFromNode_eq]
    obtain ⟨done, _, _, hitems, _, _⟩ :=
      patchAll_done cs.served (queryHosts cs.Items name) .removeLabel
    refine ⟨done, ?_⟩
    rcases hrun : patchAll cs.served (queryHosts cs.Items name) .removeLabel with ⟨_ | e, cs2⟩
    · rw [hrun] at hitems; exact hitems
    · rw [hrun] at hitems; exact hitems

theorem scaleCluster_items (cs : Clientset) (name : String) (ids : List String) (isScale : Bool) :
    (scaleCluster cs name ids isScale).2.Items =
      (patchAll cs ids (if isScale then .mergeLabel name else .removeLabel)).2.Items := by
  cases isScale with
  | false =>
    rw [scaleCluster_shrink_items, removeLabelFromNode_eq]; rfl
  | true =>
    rcases hrun : addOrUpdateNodeLabel cs ids name with ⟨_ | e, cs1⟩
    · rw [scaleCluster_of_ok cs cs1 name ids true (by simpa using hrun)]
      simp only [if_true]
      rw [← addOrUpdateNodeLabel_eq, hrun]; rfl
    · rw [scaleCluster_of_err cs cs1 name ids true (by simpa using hrun)]
      simp only [if_true]
      rw [← addOrUpdateNodeLabel_eq, hrun]

theorem run_items (op : Op) (cs : Clientset) :
    ∃ done body, (op.run cs).Items = applyTo done body cs.Items := by
  cases op with
  | create name hosts =>
    obtain ⟨done, _, _, hitems, _, _⟩ := patchAll_done cs hosts (.mergeLabel name)
    exact ⟨done, _, by simp only [Op.run]; rw [createCluster_eq]; exact hitems⟩
  | list => exact ⟨[], .removeLabel, by simp only [Op.run]; rw [listClusters_items, applyTo_nil]⟩
  | get name =>
    exact ⟨[], .removeLabel, by simp only [Op.run]; rw [getCluster_state, applyTo_nil]; rfl⟩
  | delete name =>
    obtain ⟨done, h⟩ := deleteCluster_items cs name
    exact ⟨done, _, h⟩
  | rename name hosts =>
    obtain ⟨done, _, _, hitems, _, _⟩ := patchAll_done cs hosts (.mergeLabel name)
    exact ⟨done, _, by simp only [Op.run]; rw [updateClusterName_items]; exact hitems⟩
  | scale name nodes isScale =>
    obtain ⟨done, _, _, hitems, _, _⟩ :=
      patchAll_done cs nodes (if isScale then .mergeLabel name else .removeLabel)
    exact ⟨done, _, by simp only [Op.run]; rw [scaleCluster_items]; exact hitems⟩

theorem run_preserves (op : Op) (cs : Clientset) (hu : cs.UniqueNames)
    (hv : ∀ n ∈ cs.Items, n.values.length ≤ 1) :
    (op.run cs).UniqueNames ∧ ∀ n ∈ (op.run cs).Items, n.values.length ≤ 1 := by
  obtain ⟨done, body, hitems⟩ := run_items op cs
  constructor
  · unfold Clientset.UniqueNames
    rw [hitems, applyTo_names]
    exact hu
  · intro m hm
    rw [hitems] at hm
    obtain ⟨n, hn, rfl⟩ := mem_applyTo.1 hm
    by_cases hin : n.Name ∈ done
    · simp only [hin, if_true]
      exact values_apply body n
    · simp only [hin, if_false]
      exact hv n hn

theorem runOps_preserves (ops : List Op) (cs : Clientset) (hu : cs.UniqueNames)
    (hv : ∀ n ∈ cs.Items, n.values.length ≤ 1) :
    (runOps cs ops).UniqueNames ∧ ∀ n ∈ (runOps cs ops).Items, n.values.length ≤ 1 := by
  induction ops generalizing cs with
  | nil => exact ⟨hu, hv⟩
  | cons op rest ih =>
    obtain ⟨hu1, hv1⟩ := run_preserves op cs hu hv
    exact ih (op.run cs) hu1 hv1

/-! ## The claims -/

/-- C1 is not met at a name that is not a valid label value.  In
`n1:A, n2:B, n3:A` no node carries `my cluster` and the query is served, so
`getCluster` should fail with the not-found error; the selector built for that
name has lost its requirement, the query returns every node, and `getCluster`
returns a view of `my cluster` with the members `n1, n2, n3`.  At the name `A`
the same call returns the members `n1, n3`. -/
theorem getCluster_invalid_name_returns_all :
    twoClusters.nextFault = none ∧
    (∀ n ∈ twoClusters.Items, n.cluster ≠ some "my cluster") ∧
    validLabelValue "my cluster" = false ∧
    SelectorFromSet (LabelSelectorAsMap (.matchLabels labelKey "my cluster")).1 =
      { requirements := [] } ∧
    (getCluster twoClusters "my cluster").1 =
      .ok { ClusterName := "my cluster", Hosts := ["n1", "n2", "n3"] } ∧
    (getCluster twoClusters "my cluster").1 ≠ .error .clusterNotFound ∧
    (getCluster twoClusters "A").1 = .ok { ClusterName := "A", Hosts := ["n1", "n3"] } := by
  decide

/-- C3: `createCluster` patches the nodes in input order.  If every patch
succeeds it returns no error and every supplied node exists and carries
`logical-cluster = clusterName`.  If the patch of `x`, issued once the nodes of
`pre` have been patched, is the first to fail with `e`, then `createCluster`
returns `e` itself, the nodes named in `pre` carry the label, and every other
node, `x` and the nodes of `post` included, is exactly as before the call:
nothing is rolled back and nothing further is attempted. -/
theorem createCluster_fail_fast (cs : Clientset) (clusterName : String) (hosts : List String) :
    ((∀ pre x post, hosts = pre ++ x :: post →
        ((createCluster cs clusterName pre).2.patchNode x (.mergeLabel clusterName)).1 = none) →
      (createCluster cs clusterName hosts).1 = none ∧
      (∀ h ∈ hosts, ∃ n ∈ (createCluster cs clusterName hosts).2.Items, n.Name = h) ∧
      (∀ n ∈ (createCluster cs clusterName hosts).2.Items,
        n.Name ∈ hosts → n.cluster = some clusterName)) ∧
    (∀ pre x post e, hosts = pre ++ x :: post →
      (createCluster cs clusterName pre).1 = none →
      ((createCluster cs clusterName pre).2.patchNode x (.mergeLabel clusterName)).1 = some e →
      (createCluster cs clusterName hosts).1 = some e ∧
      (createCluster cs clusterName hosts).2.Items =
        cs.Items.map (fun n =>
          if n.Name ∈ pre then { n with Labels := setLabel n.Labels labelKey clusterName }
          else n) ∧
      (∀ h ∈ pre, ∃ n ∈ (createCluster cs clusterName hosts).2.Items, n.Name = h) ∧
      (∀ n ∈ (createCluster cs clusterName hosts).2.Items,
        n.Name ∈ pre → n.cluster = some clusterName) ∧
      (∀ n ∈ cs.Items, n.Name ∉ pre → n ∈ (createCluster cs clusterName hosts).2.Items)) := by
  have hnames : ∀ (ids : List String) (items : List Node) (h : String),
      (∃ n ∈ items, n.Name = h) →
        ∃ n ∈ applyTo ids (.mergeLabel clusterName) items, n.Name = h := by
    intro ids items h hex
    obtain ⟨n, hn, rfl⟩ := hex
    refine ⟨_, mem_applyTo.2 ⟨n, hn, rfl⟩, ?_⟩
    by_cases hm : n.Name ∈ ids <;> simp [hm, apply_name]
  have htag : ∀ (ids : List String) (items : List Node),
      ∀ n ∈ applyTo ids (.mergeLabel clusterName) items,
        n.Name ∈ ids → n.cluster = some clusterName := by
    intro ids items m hm hmem
    obtain ⟨n, _, rfl⟩ := mem_applyTo.1 hm
    by_cases hin : n.Name ∈ ids
    · simp only [hin, if_true]
      exact cluster_merge clusterName n
    · simp only [hin, if_false] at hmem
  simp only [createCluster_eq]
  constructor
  · intro hall
    have hok := patchAll_all_succeed hall
    obtain ⟨hitems, hex⟩ := patchAll_success_items hok
    refine ⟨hok, ?_, ?_⟩
    · intro h hh
      rw [hitems]
      exact hnames hosts cs.Items h (hex h hh)
    · rw [hitems]
      exact htag hosts cs.Items
  · intro pre x post e hsplit hpre hx
    subst hsplit
    obtain ⟨herr, hitems⟩ := patchAll_first_failure post hpre hx
    obtain ⟨_, hex⟩ := patchAll_success_items hpre
    refine ⟨herr, ?_, ?_, ?_, ?_⟩
    · rw [hitems]; rfl
    · intro h hh
      rw [hitems]
      exact hnames pre cs.Items h (hex h hh)
    · rw [hitems]
      exact htag pre cs.Items
    · intro n hn hnot
      rw [hitems]
      exact mem_applyTo.2 ⟨n, hn, by simp [hnot]⟩

/-- C3 at `[n1, n2, n3]` with the patch of `n2` failing: the error of that patch
comes back, `n1` carries the label, `n2` and `n3` are as they were. -/
theorem createCluster_fail_fast_witness :
    (createCluster secondRequestFails "mq-cluster" ["n1"]).1 = none ∧
    (createCluster secondRequestFails "mq-cluster" ["n1", "n2", "n3"]).1 =
      some (.api "connection refused") ∧
    (∀ n ∈ (createCluster secondRequestFails "mq-cluster" ["n1", "n2", "n3"]).2.Items,
      n.Name ∈ ["n1"] → n.cluster = some "mq-cluster") ∧
    bareNode "n2" ∈ (createCluster secondRequestFails "mq-cluster" ["n1", "n2", "n3"]).2.Items ∧
    bareNode "n3" ∈ (createCluster secondRequestFails "mq-cluster" ["n1", "n2", "n3"]).2.Items :=
  have h := (createCluster_fail_fast secondRequestFails "mq-cluster" ["n1", "n2", "n3"]).2
    ["n1"] "n2" ["n3"] (.api "connection refused") rfl (by decide) (by decide)
  ⟨by decide, h.1, h.2.2.2.1,
    h.2.2.2.2 (bareNode "n2") (by decide) (by decide),
    h.2.2.2.2 (bareNode "n3") (by decide) (by decide)⟩

/-- C4, as the code has it: when `clusterName` is a valid label value, no node
carries `logical-cluster = clusterName` and the inventory query succeeds,
`deleteCluster` returns no error, and it changes no node. -/
theorem deleteCluster_absent (cs : Clientset) (clusterName : String)
    (hname : validLabelValue clusterName = true)
    (hquery : cs.nextFault = none) (habsent : ∀ n ∈ cs.Items, n.cluster ≠ some clusterName) :
    (deleteCluster cs clusterName).1 = none ∧
      (deleteCluster cs clusterName).2.Items = cs.Items := by
  unfold deleteCluster
  rw [getNodesFromCluster_ok hquery, queryHosts_valid hname, hostsOf_eq_nil.2 habsent]
  exact ⟨rfl, rfl⟩

/-- C4 at `n1:A, n2:B, n3:A` and the name `ghost`. -/
theorem deleteCluster_absent_witness :
    validLabelValue "ghost" = true ∧ twoClusters.nextFault = none ∧
      (deleteCluster twoClusters "ghost").1 = none ∧
      (deleteCluster twoClusters "ghost").2.Items = twoClusters.Items :=
  ⟨by decide, rfl, deleteCluster_absent twoClusters "ghost" (by decide) rfl (by decide)⟩

/-- C4 as stated fails: `ghost` is a valid label value that no node carries, the
query succeeds, and `deleteCluster` returns `nil`, not the not-found error. -/
theorem absent_delete_returns_nil :
    validLabelValue "ghost" = true ∧
    (∀ n ∈ twoClusters.Items, n.cluster ≠ some "ghost") ∧ twoClusters.nextFault = none ∧
      (deleteCluster twoClusters "ghost").1 = none ∧
      (deleteCluster twoClusters "ghost").1 ≠ some .clusterNotFound := by
  decide

/-- C5: let `clusterName` have a non-empty member set in an inventory as the
control plane keeps it (unique node names, valid label values).  When no request
fails, `deleteCluster` returns no error; afterwards no former member carries
the `logical-cluster` label, `getCluster` of the same name fails with the
not-found error, and every node that was not a member is exactly as before. -/
theorem deleteCluster_removes_all (cs : Clientset) (clusterName : String)
    (hquiet : cs.Quiet) (hunique : cs.UniqueNames) (hvalid : cs.ValidLabels)
    (hmembers : hostsOf cs.Items clusterName ≠ []) :
    (deleteCluster cs clusterName).1 = none ∧
    (∀ n ∈ (deleteCluster cs clusterName).2.Items,
      n.Name ∈ hostsOf cs.Items clusterName → n.cluster = none) ∧
    (getCluster (deleteCluster cs clusterName).2 clusterName).1 = .error .clusterNotFound ∧
    (deleteCluster cs clusterName).2.Items =
      cs.Items.map (fun n =>
        if n.Name ∈ hostsOf cs.Items clusterName then
          { n with Labels := eraseLabel n.Labels labelKey }
        else n) ∧
    (∀ n ∈ cs.Items, n.Name ∉ hostsOf cs.Items clusterName →
      n ∈ (deleteCluster cs clusterName).2.Items) := by
  have hname : validLabelValue clusterName = true := by
    obtain ⟨x, hx⟩ := List.exists_mem_of_ne_nil _ hmembers
    exact valid_of_member hvalid hx
  obtain ⟨cs2, hrun, hitems, hq2, _⟩ :=
    patchAll_ok cs.served (hostsOf cs.Items clusterName) .removeLabel (quiet_served hquiet)
      (by
        intro x hx
        obtain ⟨n, hn, _, hname⟩ := mem_hostsOf.1 hx
        exact ⟨n, hn, hname⟩)
      (by
        intro _ _
        refine ⟨hostsOf_nodup hunique clusterName, ?_⟩
        intro n hn hmem
        have hc := member_of_name cs hunique hn hmem
        simp [hc])
  have hdel : deleteCluster cs clusterName = (none, cs2) := by
    unfold deleteCluster
    rw [getNodesFromCluster_ok (quiet_nextFault hquiet), queryHosts_valid hname]
    simp only
    rw [removeLabelFromNode_eq, hrun]
  have hitems2 : cs2.Items = applyTo (hostsOf cs.Items clusterName) .removeLabel cs.Items := hitems
  rw [hdel]
  refine ⟨rfl, ?_, ?_, hitems2, ?_⟩
  · simp only
    rw [hitems2]
    exact untagged_of_applyTo_remove
  · simp only
    rw [getCluster_ok (quiet_nextFault hq2) hname]
    have hnil : hostsOf cs2.Items clusterName = [] := by
      rw [hostsOf_eq_nil, hitems2]
      intro m hm hc
      obtain ⟨n, hn, rfl⟩ := mem_applyTo.1 hm
      by_cases hin : n.Name ∈ hostsOf cs.Items clusterName
      · simp only [hin, if_true] at hc
        rw [cluster_remove] at hc
        exact Option.noConfusion hc
      · simp only [hin, if_false] at hc
        exact hin (mem_hostsOf.2 ⟨n, hn, hc, rfl⟩)
    simp [hnil]
  · intro n hn hnot
    simp only
    rw [hitems2]
    exact mem_applyTo.2 ⟨n, hn, by simp [hnot]⟩

/-- C5 at members `{n1, n2}`: the deletion succeeds, both nodes end without the
label, the cluster is gone and `n3` is untouched. -/
theorem deleteCluster_removes_all_witness :
    mqCluster.Quiet ∧ mqCluster.UniqueNames ∧ mqCluster.ValidLabels ∧
    hostsOf mqCluster.Items "mq-cluster" = ["n1", "n2"] ∧
    (deleteCluster mqCluster "mq-cluster").1 = none ∧
    (∀ n ∈ (deleteCluster mqCluster "mq-cluster").2.Items,
      n.Name ∈ hostsOf mqCluster.Items "mq-cluster" → n.cluster = none) ∧
    (getCluster (deleteCluster mqCluster "mq-cluster").2 "mq-cluster").1 =
      .error .clusterNotFound ∧
    memberNode "n3" "redis-cluster" ∈ (deleteCluster mqCluster "mq-cluster").2.Items :=
  have h := deleteCluster_removes_all mqCluster "mq-cluster" (by decide) (by decide)
    (by decide) (by decide)
  ⟨by decide, by decide, by decide, by decide, h.1, h.2.1, h.2.2.1,
    h.2.2.2.2 (memberNode "n3" "redis-cluster") (by decide) (by decide)⟩

/-- C6: let `clusterName` have the non-empty member list `M`, in an inventory
whose label values are valid as the control plane keeps them, and let `ids` name
existing nodes outside `M`.  When no request fails (under strict removal `ids`
must not repeat a node, or its second removal would be rejected),
`scaleCluster … expand` returns the view of `clusterName` whose members are
those of `M` together with `ids`, and the following `scaleCluster … shrink`
returns the view whose member list is `M` again. -/
theorem scaleCluster_round_trip (cs : Clientset) (clusterName : String) (ids : List String)
    (hquiet : cs.Quiet) (hvalid : cs.ValidLabels)
    (hmembers : hostsOf cs.Items clusterName ≠ [])
    (hnew : ∀ x ∈ ids, x ∉ hostsOf cs.Items clusterName)
    (hexist : ∀ x ∈ ids, ∃ n ∈ cs.Items, n.Name = x)
    (hrepeat : cs.StrictRemove = true → ids.Nodup) :
    (∃ view, (scaleCluster cs clusterName ids true).1 = .ok view ∧
      view.ClusterName = clusterName ∧
      ∀ x, x ∈ view.Hosts ↔ x ∈ hostsOf cs.Items clusterName ∨ x ∈ ids) ∧
    (scaleCluster (scaleCluster cs clusterName ids true).2 clusterName ids false).1 =
      .ok { ClusterName := clusterName, Hosts := hostsOf cs.Items clusterName } := by
  have hname : validLabelValue clusterName = true := by
    obtain ⟨x, hx⟩ := List.exists_mem_of_ne_nil _ hmembers
    exact valid_of_member hvalid hx
  -- expansion
  obtain ⟨cs1, hrun1, hitems1, hq1, hs1⟩ :=
    patchAll_ok cs ids (.mergeLabel clusterName) hquiet hexist
      (by intro h; cases h)
  have hexp : scaleCluster cs clusterName ids true = ((getCluster cs1 clusterName).1, cs1.served) :=
    scaleCluster_of_ok cs cs1 clusterName ids true
      (by simp only [if_true]; rw [addOrUpdateNodeLabel_eq, hrun1])
  have hmem1 : ∀ x, x ∈ hostsOf cs1.Items clusterName ↔
      x ∈ hostsOf cs.Items clusterName ∨ x ∈ ids := by
    intro x
    rw [hitems1]
    constructor
    · intro hx
      obtain ⟨m, hm, hc, hname⟩ := mem_hostsOf.1 hx
      obtain ⟨n, hn, rfl⟩ := mem_applyTo.1 hm
      by_cases hin : n.Name ∈ ids
      · right
        simp only [hin, if_true, apply_name] at hname
        rw [← hname]; exact hin
      · left
        simp only [hin, if_false] at hc hname
        exact mem_hostsOf.2 ⟨n, hn, hc, hname⟩
    · rintro (hx | hx)
      · obtain ⟨n, hn, hc, hname⟩ := mem_hostsOf.1 hx
        have hnot : n.Name ∉ ids := fun hin => hnew n.Name hin (hname ▸ hx)
        exact mem_hostsOf.2 ⟨n, mem_applyTo.2 ⟨n, hn, by simp [hnot]⟩, hc, hname⟩
      · obtain ⟨n, hn, hname⟩ := hexist x hx
        have hin : n.Name ∈ ids := hname ▸ hx
        refine mem_hostsOf.2 ⟨_, mem_applyTo.2 ⟨n, hn, rfl⟩, ?_, ?_⟩
        · simp only [hin, if_true]
          exact cluster_merge clusterName n
        · simp only [hin, if_true, apply_name]
          exact hname
  have hne1 : hostsOf cs1.Items clusterName ≠ [] := by
    obtain ⟨x, hx⟩ := List.exists_mem_of_ne_nil _ hmembers
    exact List.ne_nil_of_mem ((hmem1 x).2 (Or.inl hx))
  have hview1 : (getCluster cs1 clusterName).1 =
      .ok { ClusterName := clusterName, Hosts := hostsOf cs1.Items clusterName } := by
    rw [getCluster_ok (quiet_nextFault hq1) hname, if_neg hne1]
  -- shrinking
  obtain ⟨cs2, hrun2, hitems2, hq2, _⟩ :=
    patchAll_ok cs1.served ids .removeLabel (quiet_served hq1)
      (by
        intro x hx
        show ∃ n ∈ cs1.Items, n.Name = x
        rw [hitems1]
        exact exists_name_applyTo (hexist x hx))
      (by
        intro _ hstrict
        refine ⟨hrepeat (hs1 ▸ hstrict), ?_⟩
        intro m hm hin
        have hm1 : m ∈ applyTo ids (.mergeLabel clusterName) cs.Items := hitems1 ▸ hm
        obtain ⟨n, _, rfl⟩ := mem_applyTo.1 hm1
        by_cases hn : n.Name ∈ ids
        · simp only [hn, if_true]
          rw [cluster_merge]; rfl
        · simp only [hn, if_false] at hin)
  have hshr : scaleCluster cs1.served clusterName ids false =
      ((getCluster cs2 clusterName).1, cs2.served) :=
    scaleCluster_of_ok cs1.served cs2 clusterName ids false
      (by simp only [Bool.false_eq_true, if_false]; rw [removeLabelFromNode_eq, hrun2])
  have hback : hostsOf cs2.Items clusterName = hostsOf cs.Items clusterName := by
    have h2 : cs2.Items = applyTo ids .removeLabel (applyTo ids (.mergeLabel clusterName) cs.Items) := by
      rw [hitems2]; show applyTo ids .removeLabel cs1.Items = _; rw [hitems1]
    rw [h2]
    simp only [applyTo, List.map_map]
    apply hostsOf_map_congr
    intro n hn
    by_cases hin : n.Name ∈ ids
    · have hnot : ¬ n.cluster = some clusterName := fun hc =>
        hnew n.Name hin (mem_hostsOf.2 ⟨n, hn, hc, rfl⟩)
      simp [hin, apply_name, cluster_remove, hnot]
    · simp [hin]
  refine ⟨⟨_, by rw [hexp]; exact hview1, rfl, hmem1⟩, ?_⟩
  rw [hexp]
  simp only
  rw [hshr]
  simp only
  rw [getCluster_ok (quiet_nextFault hq2) hname, hback, if_neg hmembers]

/-- C6 at `M = [n1]`, `ids = [n2]`: expansion gives `[n1, n2]`, shrinking gives
`[n1]` back. -/
theorem scaleCluster_round_trip_witness :
    hostsOf oneMember.Items "C" = ["n1"] ∧
    (scaleCluster oneMember "C" ["n2"] true).1 = .ok { ClusterName := "C", Hosts := ["n1", "n2"] } ∧
    (scaleCluster (scaleCluster oneMember "C" ["n2"] true).2 "C" ["n2"] false).1 =
      .ok { ClusterName := "C", Hosts := hostsOf oneMember.Items "C" } :=
  ⟨by decide, by decide,
    (scaleCluster_round_trip oneMember "C" ["n2"] (by decide) (by decide) (by decide)
      (by decide) (by decide) (by decide)).2⟩

/-- C8 is not met when nothing is renamed to a name that is not a valid label
value.  In `n1:A, n2:B, n3:A`, `updateClusterName "my cluster" []` sends no patch
and leaves every node as it was, so no node carries `my cluster`; the final read
nevertheless succeeds and the view returned for `my cluster` has the members
`n1, n2, n3`, not the nodes labelled with the new name. -/
theorem rename_to_invalid_name_returns_all :
    validLabelValue "my cluster" = false ∧
    (updateClusterName twoClusters "my cluster" []).2.Items = twoClusters.Items ∧
    hostsOf (updateClusterName twoClusters "my cluster" []).2.Items "my cluster" = [] ∧
    (updateClusterName twoClusters "my cluster" []).1 =
      .ok { ClusterName := "my cluster", Hosts := ["n1", "n2", "n3"] } := by
  decide

/-- C9, with the read made explicit: if `clusterName` is a valid label value,
every member of `clusterName` is in `nodeIds`, every removal patch succeeds and
the inventory query of the final read is served, then `scaleCluster … shrink` returns the not-found error and no
view; the label is gone from every node of `nodeIds`, no other node has changed,
and nothing is rolled back. -/
theorem scaleCluster_shrink_not_found (cs : Clientset) (clusterName : String)
    (nodeIds : List String) (hname : validLabelValue clusterName = true)
    (hcover : ∀ x ∈ hostsOf cs.Items clusterName, x ∈ nodeIds)
    (hpatches : (removeLabelFromNode cs nodeIds).1 = none)
    (hquery : (removeLabelFromNode cs nodeIds).2.nextFault = none) :
    (scaleCluster cs clusterName nodeIds false).1 = .error .clusterNotFound ∧
    (∀ x ∈ nodeIds, ∃ n ∈ (scaleCluster cs clusterName nodeIds false).2.Items, n.Name = x) ∧
    (∀ n ∈ (scaleCluster cs clusterName nodeIds false).2.Items,
      n.Name ∈ nodeIds → n.cluster = none) ∧
    (scaleCluster cs clusterName nodeIds false).2.Items =
      cs.Items.map (fun n =>
        if n.Name ∈ nodeIds then { n with Labels := eraseLabel n.Labels labelKey } else n) := by
  have hitems0 := scaleCluster_shrink_items cs clusterName nodeIds
  rw [removeLabelFromNode_eq] at hpatches hquery hitems0
  obtain ⟨hall, hexist⟩ := patchAll_success_items hpatches
  have hitems : (scaleCluster cs clusterName nodeIds false).2.Items =
      applyTo nodeIds .removeLabel cs.Items := by rw [hitems0, hall]
  refine ⟨?_, ?_, ?_, hitems⟩
  · rcases hrun : patchAll cs nodeIds .removeLabel with ⟨_ | e, cs1⟩
    · rw [hrun] at hquery hall
      simp only at hquery hall
      rw [scaleCluster_of_ok cs cs1 clusterName nodeIds false
        (by simpa [removeLabelFromNode_eq] using hrun)]
      simp only
      rw [getCluster_ok hquery hname]
      have hnil : hostsOf cs1.Items clusterName = [] := by
        rw [hostsOf_eq_nil, hall]
        intro m hm hc
        obtain ⟨n, hn, rfl⟩ := mem_applyTo.1 hm
        by_cases hin : n.Name ∈ nodeIds
        · simp only [hin, if_true] at hc
          rw [cluster_remove] at hc
          exact Option.noConfusion hc
        · simp only [hin, if_false] at hc
          exact hin (hcover _ (mem_hostsOf.2 ⟨n, hn, hc, rfl⟩))
      simp [hnil]
    · rw [hrun] at hpatches; simp at hpatches
  · intro x hx
    rw [hitems]
    exact exists_name_applyTo (hexist x hx)
  · rw [hitems]
    exact untagged_of_applyTo_remove

/-- C9 at cluster `C` with the single member `n1`, shrunk by `[n1]`. -/
theorem scaleCluster_shrink_not_found_witness :
    hostsOf oneMember.Items "C" = ["n1"] ∧
    (scaleCluster oneMember "C" ["n1"] false).1 = .error .clusterNotFound ∧
    (∀ n ∈ (scaleCluster oneMember "C" ["n1"] false).2.Items, n.Name ∈ ["n1"] → n.cluster = none) :=
  have h := scaleCluster_shrink_not_found oneMember "C" ["n1"] (by decide) (by decide)
    (by decide) (by decide)
  ⟨by decide, h.1, h.2.2.1⟩

/-- C9 as stated fails: the only member of `A` is in `nodeIds` and its removal
patch succeeds, yet the final read times out and `scaleCluster` returns that
error, not the not-found error. -/
theorem shrink_then_read_times_out :
    validLabelValue "A" = true ∧
    (∀ x ∈ hostsOf readFailsAfterPatch.Items "A", x ∈ ["n1"]) ∧
    (removeLabelFromNode readFailsAfterPatch ["n1"]).1 = none ∧
    (scaleCluster readFailsAfterPatch "A" ["n1"] false).1 = .error (.api "i/o timeout") ∧
    (scaleCluster readFailsAfterPatch "A" ["n1"] false).1 ≠ .error .clusterNotFound := by
  decide

/-- C10: shrinking never looks at the cluster name when it removes labels.  In
`n1:A, n2:B, n3:A`, `scaleCluster A [n2] shrink` succeeds with the unchanged view
of `A`, and `n2` has lost its label although it was a member of `B`.  In
general the inventory after a shrink is the one `removeLabelFromNode` leaves,
the same for every cluster name, and when the removal patches succeed every
node of `nodeIds` ends without the label whatever it carried. -/
theorem scaleCluster_shrink_ignores_name :
    (∃ (cs : Clientset) (A B m n : String), A ≠ B ∧ m ∈ hostsOf cs.Items A ∧
      n ∈ hostsOf cs.Items B ∧
      (∃ view, (scaleCluster cs A [n] false).1 = .ok view ∧
        (getCluster cs A).1 = .ok view ∧ m ∈ view.Hosts) ∧
      (∀ node ∈ (scaleCluster cs A [n] false).2.Items, node.Name = n → node.cluster = none) ∧
      n ∉ hostsOf (scaleCluster cs A [n] false).2.Items B) ∧
    (∀ (cs : Clientset) (clusterName : String) (nodeIds : List String),
      (scaleCluster cs clusterName nodeIds false).2.Items =
        (removeLabelFromNode cs nodeIds).2.Items ∧
      ((removeLabelFromNode cs nodeIds).1 = none →
        ∀ node ∈ (scaleCluster cs clusterName nodeIds false).2.Items,
          node.Name ∈ nodeIds → node.cluster = none)) := by
  constructor
  · refine ⟨twoClusters, "A", "B", "n1", "n2", by decide, by decide, by decide,
      ⟨{ ClusterName := "A", Hosts := ["n1", "n3"] }, by decide, by decide, by decide⟩,
      by decide, by decide⟩
  · intro cs clusterName nodeIds
    refine ⟨scaleCluster_shrink_items cs clusterName nodeIds, ?_⟩
    intro hok
    rw [scaleCluster_shrink_items]
    rw [removeLabelFromNode_eq] at hok ⊢
    rw [(patchAll_success_items hok).1]
    exact untagged_of_applyTo_remove

/-- C10 at `n1:A, n2:B, n3:A`: the removal patch of `n2` succeeds under the name
`A`, and `n2`, a member of `B`, ends without the label. -/
theorem scaleCluster_shrink_ignores_name_witness :
    (removeLabelFromNode twoClusters ["n2"]).1 = none ∧
    hostsOf twoClusters.Items "B" = ["n2"] ∧
    (∀ node ∈ (scaleCluster twoClusters "A" ["n2"] false).2.Items,
      node.Name ∈ ["n2"] → node.cluster = none) :=
  ⟨by decide, by decide,
    (scaleCluster_shrink_ignores_name.2 twoClusters "A" ["n2"]).2 (by decide)⟩

/-- C2 is not met when a node lacks the label.  The discovery request of
`listClusters` carries no requirement (the `Exists` expression is lost with the
discarded error of `LabelSelectorAsMap`), so it returns every node.  With `n1:A`
and an unlabelled `n2` the result has a second entry, named by the empty string
and without members; with two unlabelled nodes it is that entry alone instead
of the no-cluster error.  With `n1:A, n2:B, n3:A`, all labelled, the result is
the two entries the claim gives. -/
theorem listClusters_lists_unlabelled :
    SelectorFromSet (LabelSelectorAsMap (.matchExists labelKey)).1 = { requirements := [] } ∧
    oneUnlabelled.Quiet ∧
    (listClusters oneUnlabelled).1 =
      .ok [{ ClusterName := "A", Hosts := ["n1"] }, { ClusterName := "", Hosts := [] }] ∧
    noneLabelled.Quiet ∧ (∀ n ∈ noneLabelled.Items, n.cluster = none) ∧
    (listClusters noneLabelled).1 = .ok [{ ClusterName := "", Hosts := [] }] ∧
    (listClusters twoClusters).1 =
      .ok [{ ClusterName := "A", Hosts := ["n1", "n3"] }, { ClusterName := "B", Hosts := ["n2"] }] := by
  decide

/-- C7, with the reads made explicit.  Starting from an inventory with unique
node names whose label maps hold at most one `logical-cluster` entry, after any
sequence of operations every node still stores at most one value under
`logical-cluster` and no node is a member of two clusters.  And when, in an
inventory whose label values are valid as the control plane keeps them, a node
`n` of cluster `A` is put into another cluster `B` by a successful
`createCluster B [n]`, then at any later moment with the same labels at which
the inventory query is served, `getCluster B` returns a view containing `n`, and
`getCluster A` either fails with the not-found error or returns a view without
`n`. -/
theorem exclusive_membership :
    (∀ (cs : Clientset) (ops : List Op), cs.UniqueNames →
      (∀ n ∈ cs.Items, n.values.length ≤ 1) →
      (∀ n ∈ (runOps cs ops).Items, n.values.length ≤ 1) ∧
      (∀ x A B, x ∈ hostsOf (runOps cs ops).Items A → x ∈ hostsOf (runOps cs ops).Items B →
        A = B)) ∧
    (∀ (cs : Clientset) (A B n : String), cs.ValidLabels → A ≠ B →
      n ∈ hostsOf cs.Items A → (createCluster cs B [n]).1 = none →
      ∀ later : Clientset, later.Items = (createCluster cs B [n]).2.Items →
        later.nextFault = none →
        (∃ view, (getCluster later B).1 = .ok view ∧ n ∈ view.Hosts) ∧
        ((getCluster later A).1 = .error .clusterNotFound ∨
          ∃ view, (getCluster later A).1 = .ok view ∧ n ∉ view.Hosts)) := by
  constructor
  · intro cs ops hu hv
    obtain ⟨hu1, hv1⟩ := runOps_preserves ops cs hu hv
    refine ⟨hv1, ?_⟩
    intro x A B hA hB
    obtain ⟨n, hn, hcB, hname⟩ := mem_hostsOf.1 hB
    have hcA : n.cluster = some A := member_of_name _ hu1 hn (hname ▸ hA)
    rw [hcA] at hcB
    exact Option.some.inj hcB
  · intro cs A B n hvalid hAB hA hok later hitems hquery
    have hnameA : validLabelValue A = true := valid_of_member hvalid hA
    rw [createCluster_eq] at hok hitems
    obtain ⟨hall, hexist⟩ := patchAll_success_items hok
    rw [hall] at hitems
    obtain ⟨m, hm, hname⟩ := hexist n (by simp)
    have hinB : n ∈ hostsOf later.Items B := by
      rw [hitems]
      refine mem_hostsOf.2 ⟨_, mem_applyTo.2 ⟨m, hm, rfl⟩, ?_, ?_⟩
      · simp only [hname, List.mem_singleton, if_true]
        exact cluster_merge B m
      · simp only [hname, List.mem_singleton, if_true, apply_name]
    have hqueryB : n ∈ queryHosts later.Items B := by
      cases hB : validLabelValue B with
      | true => rw [queryHosts_valid hB]; exact hinB
      | false =>
        rw [queryHosts_invalid hB]
        obtain ⟨m2, hm2, _, hname2⟩ := mem_hostsOf.1 hinB
        exact List.mem_map.2 ⟨m2, hm2, hname2⟩
    have hnotA : n ∉ hostsOf later.Items A := by
      intro hmem
      rw [hitems] at hmem
      obtain ⟨m2, hm2, hc, hname2⟩ := mem_hostsOf.1 hmem
      obtain ⟨m3, _, rfl⟩ := mem_applyTo.1 hm2
      by_cases hin : m3.Name ∈ [n]
      · simp only [hin, if_true] at hc
        rw [cluster_merge] at hc
        exact hAB (Option.some.inj hc).symm
      · simp only [hin, if_false] at hname2
        exact hin (by simp [hname2])
    constructor
    · refine ⟨{ ClusterName := B, Hosts := queryHosts later.Items B }, ?_, hqueryB⟩
      rw [getCluster_query hquery, if_neg (List.ne_nil_of_mem hqueryB)]
    · rw [getCluster_ok hquery hnameA]
      by_cases hnil : hostsOf later.Items A = []
      · left; simp [hnil]
      · right
        exact ⟨_, by rw [if_neg hnil], hnotA⟩

/-- C7 at `n1:A, n2:B, n3:A`: after `createCluster B [n1]` the view of `B`
contains `n1` and the view of `A` does not; and after a few operations no node
name is in two clusters. -/
theorem exclusive_membership_witness :
    (createCluster twoClusters "B" ["n1"]).1 = none ∧
    (∃ view, (getCluster (createCluster twoClusters "B" ["n1"]).2 "B").1 = .ok view ∧
      "n1" ∈ view.Hosts) ∧
    ((getCluster (createCluster twoClusters "B" ["n1"]).2 "A").1 = .error .clusterNotFound ∨
      ∃ view, (getCluster (createCluster twoClusters "B" ["n1"]).2 "A").1 = .ok view ∧
        "n1" ∉ view.Hosts) ∧
    (∀ x A B,
      x ∈ hostsOf (runOps twoClusters [.create "B" ["n1"], .scale "A" ["n2"] false]).Items A →
      x ∈ hostsOf (runOps twoClusters [.create "B" ["n1"], .scale "A" ["n2"] false]).Items B →
      A = B) :=
  have h := exclusive_membership.2 twoClusters "A" "B" "n1" (by decide) (by decide) (by decide)
    (by decide) (createCluster twoClusters "B" ["n1"]).2 rfl (by decide)
  ⟨by decide, h.1, h.2,
    (exclusive_membership.1 twoClusters [.create "B" ["n1"], .scale "A" ["n2"] false]
      (by decide) (by decide)).2⟩

/-- C7 as stated fails when the read itself fails: `n1` is in `A`,
`createCluster B [n1]` succeeds, and `getCluster B` then returns the transport
error, hence no member list containing `n1`. -/
theorem read_after_create_times_out :
    "n1" ∈ hostsOf readFailsAfterPatch.Items "A" ∧
    (createCluster readFailsAfterPatch "B" ["n1"]).1 = none ∧
    (getCluster (createCluster readFailsAfterPatch "B" ["n1"]).2 "B").1 =
      .error (.api "i/o timeout") ∧
    ¬ ∃ view, (getCluster (createCluster readFailsAfterPatch "B" ["n1"]).2 "B").1 = .ok view ∧
      "n1" ∈ view.Hosts := by
  refine ⟨by decide, by decide, by decide, ?_⟩
  rintro ⟨view, hview, _⟩
  have herr : (getCluster (createCluster readFailsAfterPatch "B" ["n1"]).2 "B").1 =
      .error (.api "i/o timeout") := by decide
  rw [herr] at hview
  exact Except.noConfusion hview

end LogicalCluster
